import Mathlib

/-!
Verification of the VideoGrab job-execution and progress-streaming engine
(`src/server.js`) against its natural-language specification.

The JavaScript source is shallowly embedded: pure helpers become Lean
functions over `String`/`List Char`; the stateful WebSocket job handler
becomes a function from an explicit environment (the outcomes of the two
external tools and of the filesystem) to the list of messages passed to
`sendProgress` and the final staging-directory state.
-/

namespace VideoGrab

/-! ## JavaScript string primitives -/

/-- JS `\s` (and the `String.prototype.trim` character class):
whitespace and line terminators, given by code point. The ASCII members
plus NBSP (160), LS (8232), PS (8233) and BOM (65279); the remaining
Unicode space code points (8192-8202 etc.) never occur in tool output
and are omitted. -/
def isJsSpace (c : Char) : Bool :=
  c.toNat = 32 || c.toNat = 9 || c.toNat = 10 || c.toNat = 11 ||
  c.toNat = 12 || c.toNat = 13 || c.toNat = 160 || c.toNat = 8232 ||
  c.toNat = 8233 || c.toNat = 65279

/-- JS `\d`: the ASCII digits (code points 48-57). -/
def isJsDigit (c : Char) : Bool :=
  48 ≤ c.toNat && c.toNat ≤ 57

/-- JS `String.prototype.includes(sub)` on character lists:
`sub` occurs contiguously inside `s`. -/
def hasSub (s sub : List Char) : Bool :=
  match s with
  | [] => sub.isEmpty
  | _ :: t => sub.isPrefixOf s || hasSub t sub

/-- JS `String.prototype.includes(sub)`. -/
def jsIncludes (s sub : String) : Bool :=
  hasSub s.toList sub.toList

/-- Declarative reading of substring containment: some contiguous slice
of `s` equals `sub`. -/
def ContainsSub (s sub : String) : Prop :=
  ∃ pre post, s.toList = pre ++ sub.toList ++ post

/-- JS `String.prototype.startsWith`. -/
def jsStartsWith (s pre : String) : Bool :=
  pre.toList.isPrefixOf s.toList

/-- JS `String.prototype.endsWith`. -/
def jsEndsWith (s suf : String) : Bool :=
  suf.toList.isSuffixOf s.toList

theorem isPrefixOf_iff_exists (l₁ l₂ : List Char) :
    l₁.isPrefixOf l₂ = true ↔ ∃ t, l₂ = l₁ ++ t := by
  induction l₁ generalizing l₂ with
  | nil => simp [List.isPrefixOf]
  | cons a l ih =>
    cases l₂ with
    | nil => simp [List.isPrefixOf]
    | cons b t =>
      simp only [List.isPrefixOf, Bool.and_eq_true, beq_iff_eq, ih, List.cons_append,
        List.cons.injEq]
      constructor
      · rintro ⟨rfl, u, rfl⟩; exact ⟨u, rfl, rfl⟩
      · rintro ⟨u, rfl, rfl⟩; exact ⟨rfl, u, rfl⟩

theorem hasSub_iff (s sub : List Char) :
    hasSub s sub = true ↔ ∃ pre post, s = pre ++ sub ++ post := by
  induction s with
  | nil =>
    simp only [hasSub, List.isEmpty_iff]
    constructor
    · rintro rfl; exact ⟨[], [], rfl⟩
    · rintro ⟨pre, post, h⟩
      rcases List.append_eq_nil.mp (List.append_eq_nil.mp h.symm).1 with ⟨-, h2⟩
      exact h2
  | cons a t ih =>
    simp only [hasSub, Bool.or_eq_true, isPrefixOf_iff_exists, ih]
    constructor
    · rintro (⟨u, hu⟩ | ⟨pre, post, hp⟩)
      · exact ⟨[], u, by simpa using hu⟩
      · exact ⟨a :: pre, post, by simp [hp]⟩
    · rintro ⟨pre, post, hp⟩
      cases pre with
      | nil => exact Or.inl ⟨post, by simpa using hp⟩
      | cons b pre' =>
        right
        simp only [List.cons_append, List.cons.injEq] at hp
        exact ⟨pre', post, hp.2⟩

theorem jsIncludes_iff (s sub : String) :
    jsIncludes s sub = true ↔ ContainsSub s sub := by
  exact hasSub_iff s.toList sub.toList

/-! ## Failure classification (server.js lines 231–242)

`errorMessage` starts as the generic retry message and is overwritten by
the first matching clause of the `if`/`else if` chain. -/

def msgNotAvailable : String :=
  "Video format not available. Try a different quality setting."

def msgAccessRestricted : String :=
  "Video is private or requires login. Please check if the video is publicly accessible."

def msgGeoRestricted : String :=
  "Video not available in your region due to geographic restrictions."

def msgCopyright : String :=
  "Video unavailable due to copyright restrictions."

def msgGeneric : String :=
  "Failed to download video. Please check the URL and try again."

/-- The five user-facing failure messages the classifier can produce. -/
def classifiedMessages : List String :=
  [msgNotAvailable, msgAccessRestricted, msgGeoRestricted, msgCopyright, msgGeneric]

/-- The download `catch` block's classifier: a chain of case-sensitive
substring tests over `error.message`, first match wins. -/
def classifyError (text : String) : String :=
  if jsIncludes text "format is not available" then msgNotAvailable
  else if jsIncludes text "private" || jsIncludes text "login" then msgAccessRestricted
  else if jsIncludes text "geo" then msgGeoRestricted
  else if jsIncludes text "copyright" then msgCopyright
  else msgGeneric

/-! ## The stdout progress pattern (server.js line 46)

`outputString.match(/\[download\]\s+(\d+\.\d+)% of/)`: the literal
"[download]", one or more whitespace characters, one or more digits, a
dot, one or more digits (captured together with the integer part as the
percentage), then the literal "% of". `String.prototype.match` without
the `g` flag returns the leftmost match. Each greedy class in the
pattern is disjoint from the character that must follow it, so greedy
matching is maximal-munch and deterministic. -/

def dlLit : List Char := "[download]".toList

def pctOfLit : List Char := "% of".toList

/-- Consume an exact literal from the front of `cs`. -/
def dropLit : List Char → List Char → Option (List Char)
  | [], cs => some cs
  | _ :: _, [] => none
  | a :: l, b :: t => if a = b then dropLit l t else none

/-- Match the progress pattern anchored at the head of `cs`, returning
the integer and fraction digit runs of the captured group. -/
def matchPatAt (cs : List Char) : Option (List Char × List Char) :=
  match dropLit dlLit cs with
  | none => none
  | some r0 =>
    let ws := r0.takeWhile isJsSpace
    let r1 := r0.dropWhile isJsSpace
    if ws.isEmpty then none else
    let d1 := r1.takeWhile isJsDigit
    let r2 := r1.dropWhile isJsDigit
    if d1.isEmpty then none else
    match dropLit ['.'] r2 with
    | none => none
    | some r3 =>
      let d2 := r3.takeWhile isJsDigit
      let r4 := r3.dropWhile isJsDigit
      if d2.isEmpty then none else
      match dropLit pctOfLit r4 with
      | none => none
      | some _ => some (d1, d2)

/-- Leftmost match of the progress pattern anywhere in `cs`. -/
def findPat : List Char → Option (List Char × List Char)
  | [] => none
  | c :: cs =>
    match matchPatAt (c :: cs) with
    | some r => some r
    | none => findPat cs

/-- Declarative form of the pattern: `cs` starts with "[download]", a
nonempty whitespace run, the digits `d1`, a dot, the digits `d2`, and
"% of". -/
def PatAt (cs d1 d2 : List Char) : Prop :=
  ∃ ws rest,
    cs = dlLit ++ ws ++ d1 ++ '.' :: (d2 ++ pctOfLit ++ rest) ∧
    ws ≠ [] ∧ ws.all isJsSpace ∧ d1 ≠ [] ∧ d1.all isJsDigit ∧
    d2 ≠ [] ∧ d2.all isJsDigit

/-- The pattern occurs at character position `i` of `cs`. -/
def MatchesAt (cs : List Char) (i : Nat) (d1 d2 : List Char) : Prop :=
  PatAt (cs.drop i) d1 d2

theorem dropLit_eq_some (lit cs r : List Char) :
    dropLit lit cs = some r ↔ cs = lit ++ r := by
  induction lit generalizing cs with
  | nil =>
    simp only [dropLit, Option.some.injEq, List.nil_append]
  | cons a l ih =>
    cases cs with
    | nil => simp [dropLit]
    | cons b t =>
      by_cases h : a = b
      · subst h
        simp [dropLit, ih]
      · simp [dropLit, h, Ne.symm h]

theorem digit_not_space (c : Char) (h : isJsDigit c = true) :
    isJsSpace c = false := by
  simp only [isJsDigit, Bool.and_eq_true, decide_eq_true_eq] at h
  simp only [isJsSpace, Bool.or_eq_false_iff, decide_eq_false_iff_not]
  omega

theorem takeWhile_append_cons (p : Char → Bool) (xs ys : List Char) (y : Char)
    (hxs : xs.all p = true) (hy : p y = false) :
    (xs ++ y :: ys).takeWhile p = xs ∧ (xs ++ y :: ys).dropWhile p = y :: ys := by
  induction xs with
  | nil => simp [List.takeWhile_cons, List.dropWhile_cons, hy]
  | cons a t ih =>
    simp only [List.all_cons, Bool.and_eq_true] at hxs
    have h2 := ih hxs.2
    simp [List.takeWhile_cons, List.dropWhile_cons, hxs.1, h2.1, h2.2]

theorem matchPatAt_sound (cs d1 d2 : List Char)
    (h : matchPatAt cs = some (d1, d2)) : PatAt cs d1 d2 := by
  rcases hd : dropLit dlLit cs with - | r0
  · rw [matchPatAt, hd] at h
    exact absurd h (by simp)
  · rw [matchPatAt, hd] at h
    simp only [] at h
    by_cases hws : (r0.takeWhile isJsSpace).isEmpty
    · rw [if_pos hws] at h
      exact absurd h (by simp)
    · rw [if_neg hws] at h
      by_cases hd1 : ((r0.dropWhile isJsSpace).takeWhile isJsDigit).isEmpty
      · rw [if_pos hd1] at h
        exact absurd h (by simp)
      · rw [if_neg hd1] at h
        rcases hr2 : dropLit ['.'] ((r0.dropWhile isJsSpace).dropWhile isJsDigit)
          with - | r3
        · rw [hr2] at h
          exact absurd h (by simp)
        · rw [hr2] at h
          simp only [] at h
          by_cases hd2 : (r3.takeWhile isJsDigit).isEmpty
          · rw [if_pos hd2] at h
            exact absurd h (by simp)
          · rw [if_neg hd2] at h
            rcases hp : dropLit pctOfLit (r3.dropWhile isJsDigit) with - | rest
            · rw [hp] at h
              exact absurd h (by simp)
            · rw [hp] at h
              simp only [Option.some.injEq, Prod.mk.injEq] at h
              obtain ⟨rfl, rfl⟩ := h
              refine ⟨r0.takeWhile isJsSpace, rest, ?_, ?_, List.all_takeWhile, ?_,
                List.all_takeWhile, ?_, List.all_takeWhile⟩
              · have e0 : cs = dlLit ++ r0 := (dropLit_eq_some _ _ _).mp hd
                have e1 : r0.takeWhile isJsSpace ++ r0.dropWhile isJsSpace = r0 :=
                  List.takeWhile_append_dropWhile isJsSpace r0
                have e2 : (r0.dropWhile isJsSpace).takeWhile isJsDigit ++
                    (r0.dropWhile isJsSpace).dropWhile isJsDigit =
                    r0.dropWhile isJsSpace :=
                  List.takeWhile_append_dropWhile isJsDigit (r0.dropWhile isJsSpace)
                have e3 : r3.takeWhile isJsDigit ++ r3.dropWhile isJsDigit = r3 :=
                  List.takeWhile_append_dropWhile isJsDigit r3
                have e4 : r3.dropWhile isJsDigit = pctOfLit ++ rest :=
                  (dropLit_eq_some _ _ _).mp hp
                have e5 : (r0.dropWhile isJsSpace).dropWhile isJsDigit = '.' :: r3 :=
                  (dropLit_eq_some _ _ _).mp hr2
                rw [e4] at e3
                rw [← e3] at e5
                rw [e5] at e2
                rw [← e2] at e1
                rw [← e1] at e0
                rw [e0]
                simp
              · simpa using hws
              · simpa using hd1
              · simpa using hd2

theorem matchPatAt_complete (cs d1 d2 : List Char) (h : PatAt cs d1 d2) :
    matchPatAt cs = some (d1, d2) := by
  obtain ⟨ws, rest, hcs, hws, hwsp, hd1, hd1p, hd2, hd2p⟩ := h
  obtain ⟨c1, d1t, rfl⟩ : ∃ c1 d1t, d1 = c1 :: d1t := by
    cases d1 with
    | nil => exact absurd rfl hd1
    | cons a t => exact ⟨a, t, rfl⟩
  have hc1 : isJsDigit c1 = true := by
    have := hd1p
    simp only [List.all_cons, Bool.and_eq_true] at this
    exact this.1
  have h0 : dropLit dlLit cs = some (ws ++ (c1 :: d1t) ++ '.' :: (d2 ++ pctOfLit ++ rest)) :=
    (dropLit_eq_some _ _ _).mpr (by rw [hcs]; simp)
  have hsplit1 := takeWhile_append_cons isJsSpace ws
    (d1t ++ '.' :: (d2 ++ pctOfLit ++ rest)) c1 hwsp (digit_not_space c1 hc1)
  have hdot : isJsDigit '.' = false := by decide
  have hsplit2 := takeWhile_append_cons isJsDigit (c1 :: d1t)
    (d2 ++ pctOfLit ++ rest) '.' hd1p hdot
  obtain ⟨c2, d2t, rfl⟩ : ∃ c2 d2t, d2 = c2 :: d2t := by
    cases d2 with
    | nil => exact absurd rfl hd2
    | cons a t => exact ⟨a, t, rfl⟩
  have hpct : isJsDigit '%' = false := by decide
  have hsplit3 := takeWhile_append_cons isJsDigit (c2 :: d2t)
    (" of".toList ++ rest) '%' hd2p hpct
  rw [matchPatAt, h0]
  simp only []
  have e1 : ws ++ c1 :: d1t ++ '.' :: (c2 :: d2t ++ pctOfLit ++ rest) =
      ws ++ c1 :: (d1t ++ '.' :: (c2 :: d2t ++ pctOfLit ++ rest)) := by simp
  rw [e1, hsplit1.1, hsplit1.2]
  rw [if_neg (by simpa using hws)]
  have e2 : c1 :: (d1t ++ '.' :: (c2 :: d2t ++ pctOfLit ++ rest)) =
      (c1 :: d1t) ++ '.' :: (c2 :: d2t ++ pctOfLit ++ rest) := by simp
  rw [e2, hsplit2.1, hsplit2.2]
  rw [if_neg (by simp)]
  have hdot4 : dropLit ['.'] ('.' :: (c2 :: d2t ++ pctOfLit ++ rest)) =
      some (c2 :: d2t ++ pctOfLit ++ rest) :=
    (dropLit_eq_some _ _ _).mpr rfl
  rw [hdot4]
  simp only []
  have e3 : c2 :: d2t ++ pctOfLit ++ rest =
      (c2 :: d2t) ++ '%' :: (" of".toList ++ rest) := by
    simp only [List.cons_append, List.append_assoc, List.cons.injEq, true_and]
    rfl
  rw [e3, hsplit3.1, hsplit3.2]
  rw [if_neg (by simp)]
  have h4 : dropLit pctOfLit ('%' :: (" of".toList ++ rest)) = some rest :=
    (dropLit_eq_some _ _ _).mpr rfl
  rw [h4]

theorem not_patAt_nil (d1 d2 : List Char) : ¬ PatAt [] d1 d2 := by
  rintro ⟨ws, rest, hcs, -⟩
  have hnil : dlLit = [] := by
    rcases List.append_eq_nil.mp hcs.symm with ⟨h1, -⟩
    rcases List.append_eq_nil.mp h1 with ⟨h2, -⟩
    exact (List.append_eq_nil.mp h2).1
  exact absurd hnil (by decide)

theorem patAt_unique {cs d1 d2 e1 e2 : List Char}
    (h1 : PatAt cs d1 d2) (h2 : PatAt cs e1 e2) : d1 = e1 ∧ d2 = e2 := by
  have c1 := matchPatAt_complete _ _ _ h1
  have c2 := matchPatAt_complete _ _ _ h2
  rw [c1] at c2
  simpa using c2

theorem findPat_eq_some_iff (cs d1 d2 : List Char) :
    findPat cs = some (d1, d2) ↔
      ∃ i, MatchesAt cs i d1 d2 ∧ ∀ j e1 e2, MatchesAt cs j e1 e2 → i ≤ j := by
  induction cs with
  | nil =>
    simp only [findPat]
    constructor
    · intro h
      exact absurd h (by simp)
    · rintro ⟨i, hi, -⟩
      have : PatAt [] d1 d2 := by
        simpa [MatchesAt] using hi
      exact absurd this (not_patAt_nil d1 d2)
  | cons c cs ih =>
    rcases hm : matchPatAt (c :: cs) with - | ⟨f1, f2⟩
    · have hnot0 : ∀ e1 e2, ¬ MatchesAt (c :: cs) 0 e1 e2 := by
        intro e1 e2 hpa
        have := matchPatAt_complete _ _ _ (by simpa [MatchesAt] using hpa)
        rw [hm] at this
        exact absurd this (by simp)
      have step : findPat (c :: cs) = findPat cs := by
        simp [findPat, hm]
      rw [step, ih]
      constructor
      · rintro ⟨i, hi, hmin⟩
        refine ⟨i + 1, hi, ?_⟩
        intro j e1 e2 hj
        cases j with
        | zero => exact absurd hj (hnot0 e1 e2)
        | succ j =>
          have : MatchesAt cs j e1 e2 := hj
          exact Nat.succ_le_succ (hmin j e1 e2 this)
      · rintro ⟨i, hi, hmin⟩
        cases i with
        | zero => exact absurd hi (hnot0 d1 d2)
        | succ i =>
          refine ⟨i, hi, ?_⟩
          intro j e1 e2 hj
          have : MatchesAt (c :: cs) (j + 1) e1 e2 := hj
          exact Nat.le_of_succ_le_succ (hmin (j + 1) e1 e2 this)
    · have hp : MatchesAt (c :: cs) 0 f1 f2 := by
        have := matchPatAt_sound _ _ _ hm
        simpa [MatchesAt] using this
      have step : findPat (c :: cs) = some (f1, f2) := by
        simp [findPat, hm]
      rw [step]
      constructor
      · intro h
        simp only [Option.some.injEq, Prod.mk.injEq] at h
        obtain ⟨rfl, rfl⟩ := h
        exact ⟨0, hp, fun j e1 e2 _ => Nat.zero_le j⟩
      · rintro ⟨i, hi, hmin⟩
        have hi0 : i = 0 := Nat.le_zero.mp (hmin 0 f1 f2 hp)
        subst hi0
        have := patAt_unique (show PatAt (c :: cs) d1 d2 by simpa [MatchesAt] using hi)
          (show PatAt (c :: cs) f1 f2 by simpa [MatchesAt] using hp)
        simp [this.1, this.2]

/-! ## Progress events and the two tool runners (server.js lines 34–95) -/

/-- Value of a run of ASCII digits, most significant first. -/
def digitsToNat (ds : List Char) : Nat :=
  ds.foldl (fun n c => 10 * n + (c.toNat - 48)) 0

/-- Exact decimal value of the captured percentage `d1.d2`. JS
`parseFloat` returns the nearest binary double of this decimal; that
rounding never matters to the properties below, so the value is kept
exact as a rational. -/
def pctValue (d1 d2 : List Char) : ℚ :=
  (digitsToNat d1 : ℚ) + (digitsToNat d2 : ℚ) / 10 ^ d2.length

/-- A message passed to a progress callback or sent over the channel. -/
inductive Msg where
  | status (message : String) (percent : ℚ)
  | progress (percent : ℚ)
  | error (message : String)
  | downloadReady (filename : String) (size : Nat) (url : String)
deriving DecidableEq

/-- Events the `runYtDlp` stdout `data` handler emits for one chunk
(lines 41–51): one progress event per chunk, for the leftmost match. -/
def stdoutEvents (frag : String) : List Msg :=
  match findPat frag.toList with
  | some (d1, d2) => [Msg.progress (pctValue d1 d2)]
  | none => []

/-- Events the `runYtDlp` stderr `data` handler emits for one chunk
(lines 53–60): the raw chunk, when it contains "ERROR:". -/
def stderrEvents (frag : String) : List Msg :=
  if jsIncludes frag "ERROR:" then [Msg.error frag] else []

/-- One captured output chunk of the extraction tool. -/
inductive Chunk where
  | out (s : String)
  | err (s : String)
deriving DecidableEq

def chunkEvents : Chunk → List Msg
  | .out s => stdoutEvents s
  | .err s => stderrEvents s

/-- The accumulated `output` variable: the stdout chunks, concatenated. -/
def accumOut (chunks : List Chunk) : String :=
  chunks.foldl (fun acc c => match c with | .out s => acc ++ s | .err _ => acc) ""

/-- The accumulated `error` variable: the stderr chunks, concatenated. -/
def accumErr (chunks : List Chunk) : String :=
  chunks.foldl (fun acc c => match c with | .out _ => acc | .err s => acc ++ s) ""

/-- `runYtDlp` (lines 35–70): the events handed to `onProgress` in
arrival order, and the settled promise — the accumulated stdout on exit
code 0, otherwise the accumulated stderr (or a fixed message when
stderr stayed empty, since `new Error(error || '...')`). -/
def runYtDlp (chunks : List Chunk) (exitCode : Nat) :
    List Msg × Except String String :=
  (chunks.flatMap chunkEvents,
   if exitCode = 0 then .ok (accumOut chunks)
   else .error (if accumErr chunks = "" then "Video processing command failed"
                else accumErr chunks))

/-- The `runFFmpeg` stderr handler (lines 78–85): a chunk containing
"size=" yields a fixed 90% progress event. -/
def ffChunkEvents (s : String) : List Msg :=
  if jsIncludes s "size=" then [Msg.progress 90] else []

/-- `runFFmpeg` (lines 73–95): resolves on exit code 0, otherwise
rejects with the accumulated stderr (or a fixed message). -/
def runFFmpeg (chunks : List String) (exitCode : Nat) :
    List Msg × Except String Unit :=
  (chunks.flatMap ffChunkEvents,
   if exitCode = 0 then .ok ()
   else .error (if String.join chunks = "" then "Video conversion failed"
                else String.join chunks))

/-! ## Sanitisation and naming (server.js lines 148–157) -/

/-- The filesystem-hostile character class `[\\/:*?"<>|]`. -/
def isHostile (c : Char) : Bool :=
  c = '\\' || c = '/' || c = ':' || c = '*' || c = '?' || c = '"' ||
  c = '<' || c = '>' || c = '|'

/-- JS `String.prototype.trim`. -/
def jsTrim (s : String) : String :=
  String.mk (((s.toList.dropWhile isJsSpace).reverse.dropWhile isJsSpace).reverse)

/-- `videoTitle.replace(/[\\/:*?"<>|]/g, '').trim() || 'video'`. -/
def sanitizeTitle (videoTitle : String) : String :=
  let s := jsTrim (String.mk (videoTitle.toList.filter (fun c => !(isHostile c))))
  if s = "" then "video" else s

/-- JS `[a-zA-Z0-9]` by code point. -/
def isAlnum (c : Char) : Bool :=
  (48 ≤ c.toNat && c.toNat ≤ 57) || (65 ≤ c.toNat && c.toNat ≤ 90) ||
  (97 ≤ c.toNat && c.toNat ≤ 122)

/-- `url.replace(/[^a-zA-Z0-9]/g, '').substring(0, 10)`. -/
def sanitizeUrl (url : String) : String :=
  String.mk ((url.toList.filter isAlnum).take 10)

/-- JS `String.prototype.replace` with a plain-string pattern replaces
only the first occurrence. -/
def jsReplaceFirstList (s pat rep : List Char) : List Char :=
  match s with
  | [] => if pat.isEmpty then rep else []
  | c :: t =>
    if pat.isPrefixOf s then rep ++ s.drop pat.length
    else c :: jsReplaceFirstList t pat rep

def jsReplaceFirst (s pat rep : String) : String :=
  String.mk (jsReplaceFirstList s.toList pat.toList rep.toList)

/-- The yt-dlp `--format` selector for video targets (lines 178–184);
`height` is `quality.replace('p', '')`. -/
def formatSelector (quality format : String) : String :=
  if quality = "auto" then
    "bestvideo[ext=" ++ format ++ "]+bestaudio/best"
  else
    "bestvideo[height<=" ++ jsReplaceFirst quality "p" "" ++ "][ext=" ++ format ++
      "]+bestaudio[ext=m4a]/best[height<=" ++ jsReplaceFirst quality "p" "" ++
      "][ext=" ++ format ++ "]"

/-! ## Staging directory, validation, lookup -/

/-- The staging directory: the files' names with their byte sizes. -/
abbrev Dir := List (String × Nat)

/-- `fs.stat(name).size` against the staging directory. -/
def statSize (dir : Dir) (name : String) : Option Nat :=
  (dir.find? (fun e => e.1 = name)).map (·.2)

/-- The validation step (lines 218–221): stat the final file and reject
a zero-byte artifact. On a missing file `fs.stat` itself rejects with
Node's ENOENT error. -/
def finalizeCheck (dir : Dir) (name : String) : Except String Nat :=
  match statSize dir name with
  | none => .error ("ENOENT: no such file or directory, stat " ++ name)
  | some size =>
    if size = 0 then .error "Downloaded file is empty" else .ok size

/-- The video branch's lookup (lines 199–200): the first directory
entry whose name starts with the job's working-name stem
`fileId + "_" + sanitizedUrl`. -/
def findByStem (files : List String) (stem : String) : Option String :=
  files.find? (fun f => jsStartsWith f stem)

/-- The audio branch's path construction (line 174): the exact name
stem + "." + format, fixed without consulting the directory. -/
def audioFinalName (stem format : String) : String :=
  stem ++ "." ++ format

/-- Stated from the spec's words, for comparison with the source's
lookup: scan the staging directory for "the unique entry whose name
starts with the job's working-name prefix". -/
def specLocateByStem (files : List String) (stem : String) : Option String :=
  match files.filter (fun f => jsStartsWith f stem) with
  | [f] => some f
  | _ => none

/-! ## The WebSocket job handler (server.js lines 128–252) -/

/-- `WebSocket.OPEN`. -/
def wsOPEN : Nat := 1

/-- `sendProgress` (lines 136–140): forward the update only when the
socket is in the OPEN state, else drop it silently. -/
def sendProgress (readyState : Nat) (sent : List Msg) (update : Msg) : List Msg :=
  if readyState = wsOPEN then sent ++ [update] else sent

/-- Feed a run of callback events through `sendProgress` in order. -/
def sendAll (readyState : Nat) (sent : List Msg) (updates : List Msg) : List Msg :=
  updates.foldl (sendProgress readyState) sent

/-- Outcomes of the external collaborators for one job: the chunks each
tool writes, its exit code, the files the download run leaves in
staging (also on a failed run — partial artifacts), the file the
transcode run writes, and the fresh job identifier. -/
structure Env where
  fileId : String
  titleChunks : List Chunk
  titleExit : Nat
  dlChunks : List Chunk
  dlExit : Nat
  dlCreates : Dir
  ffChunks : List String
  ffExit : Nat
  ffSize : Nat

/-- The stat / empty-check / ready-send tail of the `try` body
(lines 218–229): the updates it hands to `sendProgress`, the directory,
and `some e` when it threw. -/
def finishJob (finalFilename finalPath : String) (dir : Dir) :
    List Msg × Dir × Option String :=
  match finalizeCheck dir finalPath with
  | .error e => ([], dir, some e)
  | .ok size =>
    ([.downloadReady finalFilename size ("/download/" ++ finalPath)],
     dir, none)

/-- The body of the inner `try` (lines 145–229): the updates it hands
to `sendProgress` in order, the staging directory afterward, and
`some e` when the body threw the error message `e`.
`ensureDownloadsDir` is an idempotent mkdir with no effect on the file
model. The video branch passes `formatSelector quality format` to the
external tool, whose behaviour is supplied by `env`. -/
def tryDownload (url format quality : String) (env : Env) (dir0 : Dir) :
    List Msg × Dir × Option String :=
  let tres := runYtDlp env.titleChunks env.titleExit
  match tres.2 with
  | .error e => (tres.1, dir0, some e)
  | .ok out =>
    let videoTitle := jsTrim out
    let sanitizedTitle := sanitizeTitle videoTitle
    let sanitizedUrl := sanitizeUrl url
    let finalFilename := sanitizedTitle ++ "." ++ format
    let stem := env.fileId ++ "_" ++ sanitizedUrl
    let pre := tres.1 ++ [.status ("Processing: " ++ videoTitle) 10]
    if format = "mp3" || format = "m4a" then
      let pre := pre ++ [.status "Downloading audio..." 20]
      let dres := runYtDlp env.dlChunks env.dlExit
      let dir := dir0 ++ env.dlCreates
      match dres.2 with
      | .error e => (pre ++ dres.1, dir, some e)
      | .ok _ =>
        let fin := finishJob finalFilename (audioFinalName stem format) dir
        (pre ++ dres.1 ++ fin.1, fin.2)
    else if format = "mp4" || format = "webm" then
      let _selector := formatSelector quality format
      let pre := pre ++ [.status "Downloading video..." 20]
      let dres := runYtDlp env.dlChunks env.dlExit
      let dir := dir0 ++ env.dlCreates
      match dres.2 with
      | .error e => (pre ++ dres.1, dir, some e)
      | .ok _ =>
        match findByStem (dir.map (fun e => e.1)) stem with
        | none => (pre ++ dres.1, dir, some "Downloaded file not found")
        | some downloadedFile =>
          if jsEndsWith downloadedFile ("." ++ format) then
            let fin := finishJob finalFilename downloadedFile dir
            (pre ++ dres.1 ++ fin.1, fin.2)
          else
            let convertedPath := stem ++ "_converted." ++ format
            let pre := pre ++ dres.1 ++ [.status "Converting file..." 80]
            let fres := runFFmpeg env.ffChunks env.ffExit
            let dir := dir ++ [(convertedPath, env.ffSize)]
            match fres.2 with
            | .error e => (pre ++ fres.1, dir, some e)
            | .ok _ =>
              let dir := dir.filter (fun e => e.1 ≠ downloadedFile)
              let fin := finishJob finalFilename convertedPath dir
              (pre ++ fres.1 ++ fin.1, fin.2)
    else (pre, dir0, some ("Unsupported format: " ++ format))

/-- The full ordered list of updates the `download-request` handler
(lines 132–243) passes to `sendProgress`, with the final directory: the
initial status, the `try` body's updates, and — when the body threw —
the `catch` block's single classified error message (the catch touches
no file). -/
def handleUpdates (url format quality : String) (env : Env) (dir0 : Dir) :
    List Msg × Dir :=
  let r := tryDownload url format quality env dir0
  match r.2.2 with
  | none => (Msg.status "Fetching video information..." 5 :: r.1, r.2.1)
  | some e =>
    (Msg.status "Fetching video information..." 5 :: r.1 ++ [Msg.error (classifyError e)],
     r.2.1)

/-- The `download-request` handler as the remote peer observes it:
every update is passed through `sendProgress` against the socket's
ready state (constant for the run in this model — the guard is applied
per update). Returns the delivered messages and the final staging
directory. -/
def handleDownloadRequest (rs : Nat) (url format quality : String) (env : Env)
    (dir0 : Dir) : List Msg × Dir :=
  (sendAll rs [] (handleUpdates url format quality env dir0).1,
   (handleUpdates url format quality env dir0).2)

/-! ## The retrieval route (server.js lines 255–279) -/

inductive RouteOutcome where
  | notFound
  | served (suggestedName : String)
  | transferFailed
deriving DecidableEq

/-- `GET /download/:filename`: 404 when the file is absent; otherwise
`res.download(filePath, req.params.filename, cb)` streams it with the
request's filename as the suggested save name, and the callback deletes
the file only when the transfer reported no error. `transferFails`
abstracts the transfer outcome. -/
def downloadRoute (dir : Dir) (filename : String) (transferFails : Bool) :
    RouteOutcome × Dir :=
  match statSize dir filename with
  | none => (.notFound, dir)
  | some _ =>
    if transferFails then (.transferFailed, dir)
    else (.served filename, dir.filter (fun e => e.1 ≠ filename))

/-! ## Supporting lemmas -/

theorem sendAll_open (sent updates : List Msg) :
    sendAll wsOPEN sent updates = sent ++ updates := by
  induction updates generalizing sent with
  | nil => simp [sendAll]
  | cons m t ih =>
    simp only [sendAll, List.foldl_cons] at ih ⊢
    rw [ih, sendProgress, if_pos rfl]
    simp

theorem sendAll_not_open {rs : Nat} (h : rs ≠ wsOPEN)
    (sent updates : List Msg) : sendAll rs sent updates = sent := by
  induction updates generalizing sent with
  | nil => rfl
  | cons m t ih =>
    simp only [sendAll, List.foldl_cons] at ih ⊢
    rw [sendProgress, if_neg h, ih]

theorem classifyError_mem (e : String) :
    classifyError e ∈ classifiedMessages := by
  unfold classifyError classifiedMessages
  split_ifs <;> simp

/-! ## Claim theorems -/

/-- C1: failure classification is a pure function of the diagnostic
text: a fixed-order, first-match-wins chain of substring tests.
"format is not available" → not-available; otherwise "private" or
"login" → access-restricted; otherwise "geo" → region-restricted;
otherwise "copyright" → rights-restricted; any other text → the
generic retry message; and the result always lies in the fixed
category set. -/
theorem C1_classification_first_match (text : String) :
    (ContainsSub text "format is not available" →
       classifyError text = msgNotAvailable) ∧
    (¬ ContainsSub text "format is not available" →
       (ContainsSub text "private" ∨ ContainsSub text "login") →
       classifyError text = msgAccessRestricted) ∧
    (¬ ContainsSub text "format is not available" →
       ¬ ContainsSub text "private" → ¬ ContainsSub text "login" →
       ContainsSub text "geo" → classifyError text = msgGeoRestricted) ∧
    (¬ ContainsSub text "format is not available" →
       ¬ ContainsSub text "private" → ¬ ContainsSub text "login" →
       ¬ ContainsSub text "geo" → ContainsSub text "copyright" →
       classifyError text = msgCopyright) ∧
    (¬ ContainsSub text "format is not available" →
       ¬ ContainsSub text "private" → ¬ ContainsSub text "login" →
       ¬ ContainsSub text "geo" → ¬ ContainsSub text "copyright" →
       classifyError text = msgGeneric) ∧
    classifyError text ∈ classifiedMessages := by
  have pos : ∀ p : String, ContainsSub text p → jsIncludes text p = true :=
    fun p hp => (jsIncludes_iff text p).mpr hp
  have neg : ∀ p : String, ¬ ContainsSub text p → jsIncludes text p = false :=
    fun p hp => by
      rcases Bool.eq_false_or_eq_true (jsIncludes text p) with h | h
      · exact absurd ((jsIncludes_iff text p).mp h) hp
      · exact h
  refine ⟨?_, ?_, ?_, ?_, ?_, classifyError_mem text⟩
  · intro h1
    simp [classifyError, pos _ h1]
  · rintro h1 (h2 | h2)
    · simp [classifyError, neg _ h1, pos _ h2]
    · simp [classifyError, neg _ h1, pos _ h2]
  · intro h1 h2 h3 h4
    simp [classifyError, neg _ h1, neg _ h2, neg _ h3, pos _ h4]
  · intro h1 h2 h3 h4 h5
    simp [classifyError, neg _ h1, neg _ h2, neg _ h3, neg _ h4, pos _ h5]
  · intro h1 h2 h3 h4 h5
    simp [classifyError, neg _ h1, neg _ h2, neg _ h3, neg _ h4, neg _ h5]

/-- Witness for C1 at the diagnostic "ERROR: video is private". -/
theorem C1_classification_first_match_witness :
    classifyError "ERROR: video is private" = msgAccessRestricted :=
  (C1_classification_first_match "ERROR: video is private").2.1
    (fun hc => absurd ((jsIncludes_iff _ _).mpr hc) (by decide))
    (Or.inl ((jsIncludes_iff _ _).mp (by decide)))

/-- C8: given that the filesystem stat of the artifact reports `size`,
the validation step fails with the empty-artifact failure iff `size` is
exactly 0, and any accepted artifact's reported size equals that direct
stat and is positive. -/
theorem C8_finalize_empty_iff (dir : Dir) (name : String) (size : Nat)
    (h : statSize dir name = some size) :
    (finalizeCheck dir name = .error "Downloaded file is empty" ↔ size = 0) ∧
    (∀ n, finalizeCheck dir name = .ok n → n = size ∧ 0 < n) := by
  have hfc : finalizeCheck dir name =
      if size = 0 then .error "Downloaded file is empty" else .ok size := by
    simp [finalizeCheck, h]
  by_cases hz : size = 0
  · subst hz
    rw [hfc]
    simp
  · rw [hfc, if_neg hz]
    refine ⟨by simp [hz], ?_⟩
    intro n hn
    simp only [Except.ok.injEq] at hn
    omega

/-- Witness for C8 on a one-file staging directory. -/
theorem C8_finalize_empty_iff_witness :
    ((finalizeCheck [("a.mp4", 3)] "a.mp4" = .error "Downloaded file is empty") ↔
      (3 : Nat) = 0) ∧ ((3 : Nat) = 3 ∧ 0 < (3 : Nat)) :=
  ⟨(C8_finalize_empty_iff [("a.mp4", 3)] "a.mp4" 3 (by decide)).1,
   (C8_finalize_empty_iff [("a.mp4", 3)] "a.mp4" 3 (by decide)).2 3 (by rfl)⟩

/-- C4 counterexample: the file is present and the transfer fails; the
artifact is NOT deleted, contradicting "deleted … unconditionally —
whether the transfer itself succeeded or failed" (the cleanup runs only
in the callback's no-error branch). -/
theorem C4_route_counterexample :
    downloadRoute [("f.mp4", 5)] "f.mp4" true =
      (RouteOutcome.transferFailed, [("f.mp4", 5)]) ∧
    ([("f.mp4", 5)] : Dir) ≠ [] := by
  decide

/-- C4 (amended): an absent file yields 404 with the directory
unchanged; a present file with a clean transfer is served under the
requested filename and then deleted; a present file with a failed
transfer leaves the directory unchanged. -/
theorem C4_route_spec (dir : Dir) (name : String) (tf : Bool) :
    (statSize dir name = none →
       downloadRoute dir name tf = (.notFound, dir)) ∧
    (∀ sz, statSize dir name = some sz → tf = false →
       downloadRoute dir name tf =
         (.served name, dir.filter (fun e => e.1 ≠ name))) ∧
    (∀ sz, statSize dir name = some sz → tf = true →
       downloadRoute dir name tf = (.transferFailed, dir)) := by
  unfold downloadRoute
  refine ⟨?_, ?_, ?_⟩
  · intro h
    rw [h]
  · intro sz h ht
    rw [h, ht]
    simp
  · intro sz h ht
    rw [h, ht]
    simp

/-- Witness for C4 (amended): present file, clean transfer. -/
theorem C4_route_spec_witness :
    downloadRoute [("f.mp4", 5)] "f.mp4" false =
      (RouteOutcome.served "f.mp4", []) := by
  rw [(C4_route_spec [("f.mp4", 5)] "f.mp4" false).2.1 5 (by decide) rfl]
  decide

theorem replaceFirst_strip_tail (hs : List Char) (h : ∀ c ∈ hs, c ≠ 'p') :
    jsReplaceFirstList (hs ++ ['p']) ['p'] [] = hs := by
  induction hs with
  | nil => rfl
  | cons c t ih =>
    have hc : c ≠ 'p' := h c (List.mem_cons_self c t)
    have hpre : ¬ (['p'].isPrefixOf (c :: (t ++ ['p'])) = true) := by
      intro hp
      obtain ⟨u, hu⟩ := (isPrefixOf_iff_exists _ _).mp hp
      simp only [List.cons_append, List.singleton_append, List.cons.injEq] at hu
      exact hc hu.1
    simp only [List.cons_append, jsReplaceFirstList]
    rw [if_neg hpre]
    show c :: jsReplaceFirstList (t ++ ['p']) ['p'] [] = c :: t
    rw [ih (fun d hd => h d (List.mem_cons_of_mem c hd))]

/-- C7 counterexample: for quality "720p" and container "mp4" the
built selector's fallback alternative is constrained by both height
and container — it is not the unconstrained "best" the claim
describes. -/
theorem C7_formatSelector_counterexample :
    formatSelector "720p" "mp4" =
      "bestvideo[height<=720][ext=mp4]+bestaudio[ext=m4a]/best[height<=720][ext=mp4]" ∧
    formatSelector "720p" "mp4" ≠
      "bestvideo[height<=720][ext=mp4]+bestaudio[ext=m4a]/best" := by
  constructor
  · decide
  · decide

/-- C7 (amended): for a non-"auto" quality "<height>p", the selector
prefers the best video stream at or below the height in the requested
container plus m4a audio, and falls back to the best combined stream
STILL constrained by the same height and container. -/
theorem C7_formatSelector_spec (h fmt : String)
    (hp : ∀ c ∈ h.toList, c ≠ 'p') (hne : h ++ "p" ≠ "auto") :
    formatSelector (h ++ "p") fmt =
      "bestvideo[height<=" ++ h ++ "][ext=" ++ fmt ++
      "]+bestaudio[ext=m4a]/best[height<=" ++ h ++ "][ext=" ++ fmt ++ "]" := by
  have hrep : jsReplaceFirst (h ++ "p") "p" "" = h := by
    unfold jsReplaceFirst
    have e : (h ++ "p").toList = h.toList ++ ['p'] := String.data_append h "p"
    rw [e]
    show String.mk (jsReplaceFirstList (h.toList ++ ['p']) ['p'] []) = h
    rw [replaceFirst_strip_tail h.toList hp]
    rfl
  unfold formatSelector
  rw [if_neg hne, hrep]

/-- Witness for C7 (amended) at height 720, container mp4. -/
theorem C7_formatSelector_spec_witness :
    formatSelector ("720" ++ "p") "mp4" =
      "bestvideo[height<=" ++ "720" ++ "][ext=" ++ "mp4" ++
      "]+bestaudio[ext=m4a]/best[height<=" ++ "720" ++ "][ext=" ++ "mp4" ++ "]" :=
  C7_formatSelector_spec "720" "mp4" (by decide) (by decide)

/-- C5 counterexample: a job whose download step created a zero-byte
artifact fails ("Downloaded file is empty" → the generic classified
error), yet its artifact is still in the staging directory afterward. -/
theorem C5_artifact_retained_counterexample :
    handleDownloadRequest wsOPEN "httpsx" "mp3" "auto"
        ⟨"id", [Chunk.out "T\n"], 0, [], 0, [("id_httpsx.mp3", 0)], [], 0, 0⟩ [] =
      ([Msg.status "Fetching video information..." 5,
        Msg.status "Processing: T" 10,
        Msg.status "Downloading audio..." 20,
        Msg.error msgGeneric],
       [("id_httpsx.mp3", 0)]) ∧
    (handleDownloadRequest wsOPEN "httpsx" "mp3" "auto"
        ⟨"id", [Chunk.out "T\n"], 0, [], 0, [("id_httpsx.mp3", 0)], [], 0, 0⟩ []).2 ≠ [] := by
  constructor
  · decide
  · decide

/-- C5 (amended): the Failed transition performs no cleanup whatsoever:
for every run, the final staging directory is exactly the one the
pipeline steps left behind — the `catch` block only sends the
classified error and releases nothing. -/
theorem C5_failed_no_cleanup (rs : Nat) (url format quality : String)
    (env : Env) (dir0 : Dir) :
    (handleDownloadRequest rs url format quality env dir0).2 =
      (tryDownload url format quality env dir0).2.1 := by
  unfold handleDownloadRequest handleUpdates
  simp only []
  split <;> rfl

/-- C3: at the failing input — extraction exits non-zero with stderr
"ERROR: Private video" — the run forwards the raw stderr event and a
single terminal error carrying the GENERIC retry message, not the
access-restricted one: the case-sensitive substring test 'private'
does not match "Private". No download-ready event occurs. -/
theorem C3_private_video_generic :
    (handleDownloadRequest wsOPEN "https://x" "mp3" "auto"
        ⟨"id", [Chunk.out "My Video\n"], 0,
         [Chunk.err "ERROR: Private video"], 1, [], [], 0, 0⟩ []).1 =
      [Msg.status "Fetching video information..." 5,
       Msg.status "Processing: My Video" 10,
       Msg.status "Downloading audio..." 20,
       Msg.error "ERROR: Private video",
       Msg.error msgGeneric] ∧
    classifyError "ERROR: Private video" = msgGeneric ∧
    msgGeneric ≠ msgAccessRestricted := by
  refine ⟨by decide, by decide, by decide⟩

/-- C6 counterexample: an audio job whose download completed (exit 0)
leaving exactly one staging entry with the job's working-name stem —
but with the tool-chosen extension ".m4a" while the request said "mp3".
A prefix scan finds it; the code instead stats the exact constructed
name, misses, and the job fails. The audio branch does not locate by
scanning. -/
theorem C6_audio_exact_name_counterexample :
    (handleDownloadRequest wsOPEN "U" "mp3" "auto"
        ⟨"F", [Chunk.out "T"], 0, [], 0, [("F_U.m4a", 10)], [], 0, 0⟩ []).1 =
      [Msg.status "Fetching video information..." 5,
       Msg.status "Processing: T" 10,
       Msg.status "Downloading audio..." 20,
       Msg.error msgGeneric] ∧
    specLocateByStem ["F_U.m4a"] "F_U" = some "F_U.m4a" ∧
    audioFinalName "F_U" "mp3" = "F_U.mp3" ∧
    statSize [("F_U.m4a", 10)] "F_U.mp3" = none := by
  refine ⟨by decide, by decide, by decide, by decide⟩

/-- C6 (amended): only the video branch locates the produced file by
scanning the staging directory — and it takes the FIRST entry whose
name starts with the working-name stem, with no uniqueness check;
the audio branch constructs the exact name stem + "." + format in
advance without consulting the directory. -/
theorem C6_locate_mechanisms :
    (∀ (files : List String) (stem f : String),
       findByStem files stem = some f ↔
         ∃ l1 l2, files = l1 ++ f :: l2 ∧ jsStartsWith f stem = true ∧
           ∀ g ∈ l1, jsStartsWith g stem = false) ∧
    (∀ stem format : String, audioFinalName stem format = stem ++ "." ++ format) := by
  constructor
  · intro files stem
    induction files with
    | nil => simp [findByStem]
    | cons a t ih =>
      intro f
      by_cases ha : jsStartsWith a stem = true
      · rw [findByStem]
        simp only [List.find?_cons, ha]
        constructor
        · intro h
          simp only [Option.some.injEq] at h
          subst h
          exact ⟨[], t, rfl, ha, by simp⟩
        · rintro ⟨l1, l2, hsplit, hf, hl1⟩
          cases l1 with
          | nil =>
            simp only [List.nil_append, List.cons.injEq] at hsplit
            rw [hsplit.1]
          | cons b l1t =>
            simp only [List.cons_append, List.cons.injEq] at hsplit
            have hb : jsStartsWith b stem = false := hl1 b (List.mem_cons_self b l1t)
            rw [← hsplit.1] at hb
            rw [ha] at hb
            cases hb
      · have ha' : jsStartsWith a stem = false := Bool.eq_false_iff.mpr ha
        rw [findByStem]
        simp only [List.find?_cons, ha']
        have iht := ih f
        rw [findByStem] at iht
        rw [iht]
        constructor
        · rintro ⟨l1, l2, hsplit, hf, hl1⟩
          refine ⟨a :: l1, l2, by rw [hsplit, List.cons_append], hf, ?_⟩
          intro g hg
          rcases List.mem_cons.mp hg with rfl | hg'
          · exact ha'
          · exact hl1 g hg'
        · rintro ⟨l1, l2, hsplit, hf, hl1⟩
          cases l1 with
          | nil =>
            simp only [List.nil_append, List.cons.injEq] at hsplit
            rw [hsplit.1] at ha'
            rw [hf] at ha'
            cases ha'
          | cons b l1t =>
            simp only [List.cons_append, List.cons.injEq] at hsplit
            exact ⟨l1t, l2, hsplit.2, hf, fun g hg =>
              hl1 g (List.mem_cons_of_mem b hg)⟩
  · intro stem format
    rfl

/-! ### Provenance of error events (toward C2) -/

theorem error_mem_runYtDlp {s : String} {chunks : List Chunk} {ec : Nat}
    (h : Msg.error s ∈ (runYtDlp chunks ec).1) : ContainsSub s "ERROR:" := by
  simp only [runYtDlp, List.mem_flatMap] at h
  obtain ⟨c, -, hc⟩ := h
  cases c with
  | out t =>
    simp only [chunkEvents, stdoutEvents] at hc
    rcases hfp : findPat t.toList with - | ⟨d1, d2⟩ <;> rw [hfp] at hc <;> simp at hc
  | err t =>
    simp only [chunkEvents, stderrEvents] at hc
    by_cases ht : jsIncludes t "ERROR:" = true
    · rw [if_pos ht] at hc
      simp only [List.mem_singleton, Msg.error.injEq] at hc
      subst hc
      exact (jsIncludes_iff _ _).mp ht
    · rw [if_neg ht] at hc
      simp at hc

theorem error_not_mem_runFFmpeg {s : String} {chunks : List String} {ec : Nat} :
    Msg.error s ∉ (runFFmpeg chunks ec).1 := by
  intro h
  simp only [runFFmpeg, List.mem_flatMap] at h
  obtain ⟨c, -, hc⟩ := h
  simp only [ffChunkEvents] at hc
  by_cases htc : jsIncludes c "size=" = true
  · rw [if_pos htc] at hc
    simp at hc
  · rw [if_neg htc] at hc
    simp at hc

theorem error_not_mem_finishJob {s fn p : String} {dir : Dir} :
    Msg.error s ∉ (finishJob fn p dir).1 := by
  intro h
  unfold finishJob at h
  rcases hfc : finalizeCheck dir p with e | n <;> rw [hfc] at h <;> simp at h

theorem error_mem_tryDownload {s url format quality : String} {env : Env}
    {dir0 : Dir}
    (h : Msg.error s ∈ (tryDownload url format quality env dir0).1) :
    ContainsSub s "ERROR:" := by
  unfold tryDownload at h
  simp only [] at h
  split at h
  · simp only [] at h
    exact error_mem_runYtDlp h
  · split at h
    · -- audio branch
      split at h
      · -- download rejected
        simp only [List.append_assoc, List.mem_append, List.mem_cons,
          List.not_mem_nil, or_false] at h
        rcases h with h | h | h | h
        · exact error_mem_runYtDlp h
        · exact absurd h (by simp)
        · exact absurd h (by simp)
        · exact error_mem_runYtDlp h
      · -- download resolved, finish
        simp only [List.append_assoc, List.mem_append, List.mem_cons,
          List.not_mem_nil, or_false] at h
        rcases h with h | h | h | h | h
        · exact error_mem_runYtDlp h
        · exact absurd h (by simp)
        · exact absurd h (by simp)
        · exact error_mem_runYtDlp h
        · exact absurd h error_not_mem_finishJob
    · split at h
      · -- video branch
        split at h
        · -- download rejected
          simp only [List.append_assoc, List.mem_append, List.mem_cons,
            List.not_mem_nil, or_false] at h
          rcases h with h | h | h | h
          · exact error_mem_runYtDlp h
          · exact absurd h (by simp)
          · exact absurd h (by simp)
          · exact error_mem_runYtDlp h
        · split at h
          · -- located file missing
            simp only [List.append_assoc, List.mem_append, List.mem_cons,
              List.not_mem_nil, or_false] at h
            rcases h with h | h | h | h
            · exact error_mem_runYtDlp h
            · exact absurd h (by simp)
            · exact absurd h (by simp)
            · exact error_mem_runYtDlp h
          · split at h
            · -- extension already matches, finish
              simp only [List.append_assoc, List.mem_append, List.mem_cons,
                List.not_mem_nil, or_false] at h
              rcases h with h | h | h | h | h
              · exact error_mem_runYtDlp h
              · exact absurd h (by simp)
              · exact absurd h (by simp)
              · exact error_mem_runYtDlp h
              · exact absurd h error_not_mem_finishJob
            · split at h
              · -- ffmpeg rejected
                simp only [List.append_assoc, List.mem_append, List.mem_cons,
                  List.not_mem_nil, or_false] at h
                rcases h with h | h | h | h | h | h
                · exact error_mem_runYtDlp h
                · exact absurd h (by simp)
                · exact absurd h (by simp)
                · exact error_mem_runYtDlp h
                · exact absurd h (by simp)
                · exact absurd h error_not_mem_runFFmpeg
              · -- ffmpeg resolved, finish
                simp only [List.append_assoc, List.mem_append, List.mem_cons,
                  List.not_mem_nil, or_false] at h
                rcases h with h | h | h | h | h | h | h
                · exact error_mem_runYtDlp h
                · exact absurd h (by simp)
                · exact absurd h (by simp)
                · exact error_mem_runYtDlp h
                · exact absurd h (by simp)
                · exact absurd h error_not_mem_runFFmpeg
                · exact absurd h error_not_mem_finishJob
      · -- unsupported format
        simp only [List.append_assoc, List.mem_append, List.mem_cons,
          List.not_mem_nil, or_false] at h
        rcases h with h | h
        · exact error_mem_runYtDlp h
        · exact absurd h (by simp)

/-- C2 counterexample: a raw stderr chunk — the verbatim external-tool
diagnostic "ERROR: Private video" — is forwarded to the peer; it is
none of the fixed classified category messages. -/
theorem C2_raw_diagnostics_counterexample :
    Msg.error "ERROR: Private video" ∈
      (handleDownloadRequest wsOPEN "https://x" "webm" "auto"
        ⟨"id", [Chunk.err "ERROR: Private video"], 1, [], 0, [], [], 0, 0⟩ []).1 ∧
    "ERROR: Private video" ∉ classifiedMessages := by
  refine ⟨?_, by decide⟩
  decide

/-- C2 (amended): every update the handler forwards is a status,
progress, download-ready, or error message (the `Msg` type), and every
error message is either one of the five classified category messages
(the terminal `catch` event) or a raw stderr chunk the runner forwarded
immediately — such a chunk always contains "ERROR:". The claim's
stronger form, that the peer never receives raw tool diagnostics, is
refuted by the counterexample. -/
theorem C2_error_messages_classified_or_raw (url format quality : String)
    (env : Env) (dir0 : Dir) (s : String)
    (hmem : Msg.error s ∈ (handleUpdates url format quality env dir0).1) :
    s ∈ classifiedMessages ∨ ContainsSub s "ERROR:" := by
  unfold handleUpdates at hmem
  simp only [] at hmem
  split at hmem
  · rcases List.mem_cons.mp hmem with he | he
    · exact absurd he (by simp)
    · exact Or.inr (error_mem_tryDownload he)
  · rcases List.mem_cons.mp hmem with he | he
    · exact absurd he (by simp)
    · rcases List.mem_append.mp he with he' | he'
      · exact Or.inr (error_mem_tryDownload he')
      · simp only [List.mem_singleton, Msg.error.injEq] at he'
        subst he'
        exact Or.inl (classifyError_mem _)

/-- Witness for C2 (amended): the raw forwarded diagnostic of the
counterexample run indeed contains "ERROR:". -/
theorem C2_error_messages_classified_or_raw_witness :
    "ERROR: Private video" ∈ classifiedMessages ∨
      ContainsSub "ERROR: Private video" "ERROR:" :=
  C2_error_messages_classified_or_raw "https://x" "webm" "auto"
    ⟨"id", [Chunk.err "ERROR: Private video"], 1, [], 0, [], [], 0, 0⟩ []
    "ERROR: Private video" (by decide)

/-! ### Terminal events (toward C10) -/

/-- A terminal channel event: a classified error or a ready descriptor. -/
def isTerminalEvent : Msg → Bool
  | .error _ => true
  | .downloadReady _ _ _ => true
  | _ => false

theorem getLast?_cons_some {α : Type} {l : List α} {a m : α}
    (h : l.getLast? = some m) : (a :: l).getLast? = some m := by
  cases l with
  | nil => simp at h
  | cons b t =>
    rw [List.getLast?_cons_cons]
    exact h

theorem finishJob_none_ready {fn p : String} {dir : Dir}
    (h : (finishJob fn p dir).2.2 = none) :
    ∃ n, (finishJob fn p dir).1 =
      [Msg.downloadReady fn n ("/download/" ++ p)] := by
  unfold finishJob at h ⊢
  rcases hfc : finalizeCheck dir p with e | n
  · rw [hfc] at h
    simp at h
  · exact ⟨n, rfl⟩

theorem tryDownload_ready_last (url format quality : String) (env : Env)
    (dir0 : Dir) (t : List Msg × Dir × Option String)
    (ht : tryDownload url format quality env dir0 = t) (hn : t.2.2 = none) :
    ∃ fn n u, t.1.getLast? = some (Msg.downloadReady fn n u) := by
  unfold tryDownload at ht
  simp only [] at ht
  split at ht
  · subst ht
    simp at hn
  · split at ht
    · split at ht
      · subst ht
        simp at hn
      · subst ht
        simp only [] at hn ⊢
        obtain ⟨n, hfin⟩ := finishJob_none_ready hn
        rw [hfin, List.getLast?_concat]
        exact ⟨_, n, _, rfl⟩
    · split at ht
      · split at ht
        · subst ht
          simp at hn
        · split at ht
          · subst ht
            simp at hn
          · split at ht
            · subst ht
              simp only [] at hn ⊢
              obtain ⟨n, hfin⟩ := finishJob_none_ready hn
              rw [hfin, List.getLast?_concat]
              exact ⟨_, n, _, rfl⟩
            · split at ht
              · subst ht
                simp at hn
              · subst ht
                simp only [] at hn ⊢
                obtain ⟨n, hfin⟩ := finishJob_none_ready hn
                rw [hfin, List.getLast?_concat]
                exact ⟨_, n, _, rfl⟩
      · subst ht
        simp at hn

theorem handleUpdates_last (url format quality : String) (env : Env)
    (dir0 : Dir) :
    ∃ m, ((handleUpdates url format quality env dir0).1).getLast? = some m ∧
      isTerminalEvent m = true := by
  unfold handleUpdates
  simp only []
  rcases hres : (tryDownload url format quality env dir0).2.2 with - | e <;>
    simp only []
  · obtain ⟨fn, n, u, hl⟩ :=
      tryDownload_ready_last url format quality env dir0 _ rfl hres
    exact ⟨Msg.downloadReady fn n u, getLast?_cons_some hl, rfl⟩
  · exact ⟨Msg.error (classifyError e),
      getLast?_cons_some (List.getLast?_concat _), rfl⟩

/-- C10: an update handed to `sendProgress` while the socket is not in
the OPEN state is silently discarded — the delivered history is
unchanged and nothing is raised; a whole run against a non-OPEN socket
delivers nothing, yet still executes: its staging-directory outcome is
identical to the OPEN run's, and the run's update sequence always ends
in a terminal event (a classified error or a download-ready
descriptor), which is simply dropped. -/
theorem C10_silent_drop (rs : Nat) (url format quality : String) (env : Env)
    (dir0 : Dir) (hrs : rs ≠ wsOPEN) :
    (∀ sent m, sendProgress rs sent m = sent) ∧
    (handleDownloadRequest rs url format quality env dir0).1 = [] ∧
    (handleDownloadRequest rs url format quality env dir0).2 =
      (handleDownloadRequest wsOPEN url format quality env dir0).2 ∧
    ∃ m, ((handleDownloadRequest wsOPEN url format quality env dir0).1).getLast? =
      some m ∧ isTerminalEvent m = true := by
  refine ⟨fun sent m => by rw [sendProgress, if_neg hrs], ?_, rfl, ?_⟩
  · unfold handleDownloadRequest
    exact sendAll_not_open hrs [] _
  · unfold handleDownloadRequest
    rw [sendAll_open, List.nil_append]
    exact handleUpdates_last url format quality env dir0

/-- Witness for C10: a closed socket (readyState 3), a job that fails
on a zero-byte artifact — nothing is delivered. -/
theorem C10_silent_drop_witness :
    (handleDownloadRequest 3 "httpsx" "mp3" "auto"
       ⟨"id", [Chunk.out "T\n"], 0, [], 0, [("id_httpsx.mp3", 0)], [], 0, 0⟩ []).1 =
      [] :=
  (C10_silent_drop 3 "httpsx" "mp3" "auto"
    ⟨"id", [Chunk.out "T\n"], 0, [], 0, [("id_httpsx.mp3", 0)], [], 0, 0⟩ []
    (by decide)).2.1

/-- C9: for every stdout fragment, if the progress pattern occurs, the
handler emits exactly one progress event carrying the percentage of the
LEFTMOST occurrence (later matches in the same fragment are not
reported); a fragment with no occurrence emits nothing; and fragments
are processed independently, so occurrences in subsequent chunks keep
being reported. -/
theorem C9_stdout_first_match (frag : String) :
    (∀ d1 d2 i, MatchesAt frag.toList i d1 d2 →
       (∀ j e1 e2, MatchesAt frag.toList j e1 e2 → i ≤ j) →
       stdoutEvents frag = [Msg.progress (pctValue d1 d2)]) ∧
    ((∀ i d1 d2, ¬ MatchesAt frag.toList i d1 d2) → stdoutEvents frag = []) ∧
    (∀ (pre post : List Chunk) (ec : Nat),
       (runYtDlp (pre ++ Chunk.out frag :: post) ec).1 =
         (runYtDlp pre ec).1 ++ stdoutEvents frag ++ (runYtDlp post ec).1) := by
  refine ⟨?_, ?_, ?_⟩
  · intro d1 d2 i hi hmin
    have hfp : findPat frag.toList = some (d1, d2) :=
      (findPat_eq_some_iff _ _ _).mpr ⟨i, hi, hmin⟩
    unfold stdoutEvents
    rw [hfp]
  · intro hnone
    rcases hfp : findPat frag.toList with - | ⟨d1, d2⟩
    · unfold stdoutEvents
      rw [hfp]
    · obtain ⟨i, hi, -⟩ := (findPat_eq_some_iff _ _ _).mp hfp
      exact absurd hi (hnone i d1 d2)
  · intro pre post ec
    simp [runYtDlp, List.flatMap_append, List.flatMap_cons, chunkEvents,
      List.append_assoc]

/-- Witness for C9 on the fragment "[download]  45.2% of 10MB". -/
theorem C9_stdout_first_match_witness :
    stdoutEvents "[download]  45.2% of 10MB" =
      [Msg.progress (pctValue ['4', '5'] ['2'])] := by
  apply (C9_stdout_first_match "[download]  45.2% of 10MB").1 ['4', '5'] ['2'] 0
  · refine ⟨[' ', ' '], " 10MB".toList, ?_, by decide, by decide, by decide,
      by decide, by decide, by decide⟩
    decide
  · intro j e1 e2 hj
    exact Nat.zero_le j

end VideoGrab
